import Mathlib

/-!
# Verification of `trackedFunction` (ember-resources, `src/util/function.ts`)

This file gives a shallow embedding of the async wrapper produced by
`trackedFunction`: the `State` container, its getters (`state`, `value`,
`error`, `isPending`, ...), and the two-phase `retry` routine

```js
retry = async () => {
  if (isDestroyed(this) || isDestroying(this)) return;
  this.promise = this.#fn();          // synchronous segment
  await Promise.resolve();            // exactly one yield
  if (this.data) {                    // continuation (a microtask)
    let isUnsafe = isDestroyed(this.data) || isDestroying(this.data);
    if (!isUnsafe) { destroy(this.data); this.data = null; }
  }
  if (isDestroyed(this) || isDestroying(this)) return;
  this.data = new TrackedAsyncData(this.promise);
  return this.promise;
};
```

We model the single-threaded cooperative scheduler of the host: a FIFO
microtask queue whose items are either the continuation of `retry` after its
`await Promise.resolve()`, or the settle handler that a `TrackedAsyncData`
attaches to its promise.  The destroyable graph is modelled by `destroyed`
flags (the wrapper only ever reads `isDestroyed(x) || isDestroying(x)`, so
the two flags are collapsed into one).  `TrackedAsyncData` itself is an
external package; it is modelled from the spec (the `AsyncResult` tagged
variant): construction from an unsettled promise starts `pending`; the
settle handler checks "is this object destroyed" and no-ops otherwise;
`value`/`error` expose the resolved value / rejection reason.
Promise values and errors are represented by natural numbers, promises by
identifiers; a promise settles at most once.
-/

namespace TrackedFn

/-- Settlement outcome of a promise. -/
inductive Outcome where
  | resolved (v : Nat)
  | rejected (e : Nat)
deriving DecidableEq, Repr

/-- Modelled from the spec: the status of an `AsyncResult`
(`Pending | Resolved(value) | Rejected(error)`); the `Unstarted` variant is
represented at the `State` level by `data = none`. -/
inductive ADStatus where
  | pending
  | resolved (v : Nat)
  | rejected (e : Nat)
deriving DecidableEq, Repr

/-- Modelled from the spec: a `TrackedAsyncData` async-result object — the
promise it is attached to, its current status, and its destroyable flag
(`isDestroyed`/`isDestroying` collapsed, since the wrapper only reads their
disjunction). -/
structure AsyncData where
  promise : Nat
  status : ADStatus
  destroyed : Bool
deriving DecidableEq, Repr

/-- Items of the host's FIFO microtask queue:
the continuation of `State.retry` after `await Promise.resolve()`, or the
settle handler attached by a `TrackedAsyncData` to its promise. -/
inductive Microtask where
  | retryCont
  | settleHandler (aid : Nat) (o : Outcome)
deriving DecidableEq, Repr

/-- Observable actions of one `retry` execution, used to state ordering
properties of its phases. -/
inductive Action where
  | invokedFn (p : Nat)
  | yielded
  | destroyedPrev (aid : Nat)
  | abortedDestroyed
  | createdResult (aid : Nat) (p : Nat)
deriving DecidableEq, Repr

/-- The whole model state: the fields of the `State` instance
(`data`, `promise`), the registry of allocated `TrackedAsyncData` objects,
the set of settled promises, the microtask queue, the destroyable flag of
the `State` itself, the allocator counter, and the action log. -/
structure World where
  queue : List Microtask
  data : Option Nat
  promise : Option Nat
  ads : List (Nat × AsyncData)
  settled : List (Nat × Outcome)
  stateDestroyed : Bool
  nextAD : Nat
  log : List Action
deriving DecidableEq, Repr

/-- Registry lookup for an async-result object by identifier. -/
def findAD (ads : List (Nat × AsyncData)) (aid : Nat) : Option AsyncData :=
  match ads with
  | [] => none
  | (i, ad) :: rest => if i = aid then some ad else findAD rest aid

/-- Lookup of a promise's settlement outcome. -/
def lookupSettled (s : List (Nat × Outcome)) (p : Nat) : Option Outcome :=
  match s with
  | [] => none
  | (q, o) :: rest => if q = p then some o else lookupSettled rest p

/-- Point update of the registry at one identifier. -/
def updateAD (ads : List (Nat × AsyncData)) (aid : Nat) (f : AsyncData → AsyncData) :
    List (Nat × AsyncData) :=
  ads.map (fun ia => if ia.1 = aid then (ia.1, f ia.2) else ia)

/-- `destroy(x)` of the destroyable-graph service applied to an async-result
object: mark it destroyed (idempotent marking). -/
def markDestroyed (ads : List (Nat × AsyncData)) (aid : Nat) :
    List (Nat × AsyncData) :=
  updateAD ads aid (fun ad => { ad with destroyed := true })

/-- Write an async-result object's status (used by its settle handler). -/
def setStatus (ads : List (Nat × AsyncData)) (aid : Nat) (st : ADStatus) :
    List (Nat × AsyncData) :=
  updateAD ads aid (fun ad => { ad with status := st })

/-- The status an outcome produces. -/
def Outcome.toStatus : Outcome → ADStatus
  | .resolved v => .resolved v
  | .rejected e => .rejected e

/-- The synchronous segment of `State.retry` (lines 178-187): the destroyed
guard, the synchronous invocation of `#fn` (its result is `fnResult`: a
promise identifier, or a synchronously thrown error), the write to
`this.promise`, and the enqueue of the continuation performed by
`await Promise.resolve()`.  The second component is what the caller of
`retry()` observes synchronously: `.error e` when `#fn` threw (the promise
returned by the async function rejects with `e`), `.ok b` otherwise, where
`b` records whether the guard passed. -/
def retrySync (w : World) (fnResult : Except Nat Nat) : World × Except Nat Bool :=
  if w.stateDestroyed then (w, .ok false)
  else
    match fnResult with
    | .error e => (w, .error e)
    | .ok p =>
      ({ w with
          promise := some p
          queue := w.queue ++ [.retryCont]
          log := w.log ++ [.invokedFn p, .yielded] },
        .ok true)

/-- Modelled from the spec: constructing a `TrackedAsyncData` from a promise
(external package `ember-async-data`, abstracted by the spec as the
`AsyncResult` variant): the object starts `pending` and attaches a settle
handler to the promise; if the promise has already settled, that handler is
enqueued immediately. -/
def newAsyncData (w : World) (p : Nat) : World :=
  let aid := w.nextAD
  let w1 := { w with
      ads := w.ads ++ [(aid, ⟨p, .pending, false⟩)]
      data := some aid
      nextAD := aid + 1
      log := w.log ++ [.createdResult aid p] }
  match lookupSettled w.settled p with
  | some o => { w1 with queue := w1.queue ++ [.settleHandler aid o] }
  | none => w1

/-- Lines 189-196 of `State.retry`: `if (this.data) { let isUnsafe =
isDestroyed(this.data) || isDestroying(this.data); if (!isUnsafe) {
destroy(this.data); this.data = null; } }` — destroy and clear the previous
async-result unless it is already (being) destroyed. -/
def clearPrev (w : World) : World :=
  match w.data with
  | some aid =>
    match findAD w.ads aid with
    | some ad =>
      if ad.destroyed then w
      else { w with
          ads := markDestroyed w.ads aid
          data := none
          log := w.log ++ [Action.destroyedPrev aid] }
    | none => w
  | none => w

/-- Lines 198-203 of `State.retry`: abort if the `State` itself was
destroyed during the yield, otherwise construct a fresh `TrackedAsyncData`
from the captured promise and store it as current. -/
def commitNew (w : World) : World :=
  if w.stateDestroyed then { w with log := w.log ++ [Action.abortedDestroyed] }
  else
    match w.promise with
    | some p => newAsyncData w p
    | none => w

/-- The continuation of `State.retry` after its single yield
(lines 189-203). -/
def runRetryCont (w : World) : World :=
  commitNew (clearPrev w)

/-- Modelled from the spec: the settle handler a `TrackedAsyncData` attached
to its promise — it checks whether the object has been destroyed ("is this
still the active result") and no-ops if so; otherwise it records the
outcome as the object's status. -/
def runSettleHandler (w : World) (aid : Nat) (o : Outcome) : World :=
  match findAD w.ads aid with
  | some ad =>
    if ad.destroyed then w
    else { w with ads := setStatus w.ads aid o.toStatus }
  | none => w

/-- A promise settles: its outcome is recorded (a promise settles at most
once) and the settle handlers of every async-result attached to it are
enqueued, in registry order. -/
def settleStep (w : World) (p : Nat) (o : Outcome) : World :=
  match lookupSettled w.settled p with
  | some _ => w
  | none =>
    { w with
        settled := (p, o) :: w.settled
        queue := w.queue ++
          w.ads.filterMap (fun ia =>
            if ia.2.promise = p then some (.settleHandler ia.1 o) else none) }

/-- `destroy(state)` through the destroyable graph: the `State` is marked
destroyed and, by the child association `TrackedAsyncData` maintains, the
current async-result is destroyed with it (idempotent marking). -/
def destroyState (w : World) : World :=
  let w1 := { w with stateDestroyed := true }
  match w.data with
  | some aid => { w1 with ads := markDestroyed w1.ads aid }
  | none => w1

/-- Pop and run one microtask from the front of the FIFO queue. -/
def drainOne (w : World) : World :=
  match w.queue with
  | [] => w
  | t :: rest =>
    let w' := { w with queue := rest }
    match t with
    | .retryCont => runRetryCont w'
    | .settleHandler aid o => runSettleHandler w' aid o

/-- External events driving the model: a caller invokes `retry()` and the
source function returns promise `p`; a promise settles; the scheduler runs
one microtask; the destroyable graph destroys the `State`. -/
inductive Event where
  | callRetry (p : Nat)
  | settle (p : Nat) (o : Outcome)
  | drain
  | destroyState
deriving DecidableEq, Repr

/-- One step of the model. -/
def step (w : World) : Event → World
  | .callRetry p => (retrySync w (.ok p)).1
  | .settle p o => settleStep w p o
  | .drain => drainOne w
  | .destroyState => destroyState w

/-- Run a trace of events. -/
def run (w : World) : List Event → World
  | [] => w
  | e :: es => run (step w e) es

/-- The world `trackedFunction` starts from: a fresh `State` (no data, no
promise), nothing allocated, nothing settled, empty queue. -/
def initialWorld : World :=
  ⟨[], none, none, [], [], false, 0, []⟩

/-! ## The getters of `State` (lines 78-167) -/

/-- Modelled from the spec: the `state` string a `TrackedAsyncData` exposes
for each status of the `AsyncResult` variant. -/
def AsyncData.state (ad : AsyncData) : String :=
  match ad.status with
  | .pending => "PENDING"
  | .resolved _ => "RESOLVED"
  | .rejected _ => "REJECTED"

/-- `State.state` (line 78): `this.data?.state ?? 'UNSTARTED'`. -/
def stateGet (w : World) : String :=
  match w.data with
  | none => "UNSTARTED"
  | some aid =>
    match findAD w.ads aid with
    | some ad => ad.state
    | none => "UNSTARTED"

/-- `State.isPending` (line 86): `if (!this.data) return true; return
this.data.isPending ?? false` — a `TrackedAsyncData` is pending exactly
when its status is `pending`. -/
def isPendingGet (w : World) : Bool :=
  match w.data with
  | none => true
  | some aid =>
    match findAD w.ads aid with
    | some ad => ad.status = .pending
    | none => false

/-- `State.isResolved` (line 117): `this.data?.isResolved ?? false`. -/
def isResolvedGet (w : World) : Bool :=
  match w.data with
  | none => false
  | some aid =>
    match findAD w.ads aid with
    | some ad => match ad.status with | .resolved _ => true | _ => false
    | none => false

/-- `State.isRejected` (line 131): `this.data?.isRejected ?? false`. -/
def isRejectedGet (w : World) : Bool :=
  match w.data with
  | none => false
  | some aid =>
    match findAD w.ads aid with
    | some ad => match ad.status with | .rejected _ => true | _ => false
    | none => false

/-- `State.value` (line 151): `if (this.data?.isResolved) return
this.data.value; return null`. -/
def valueGet (w : World) : Option Nat :=
  match w.data with
  | none => none
  | some aid =>
    match findAD w.ads aid with
    | some ad => match ad.status with | .resolved v => some v | _ => none
    | none => none

/-- `State.error` (line 165): `this.data?.error ?? null`, where the error of
an async-result (modelled from the spec) is its rejection reason when
rejected and null otherwise. -/
def errorGet (w : World) : Option Nat :=
  match w.data with
  | none => none
  | some aid =>
    match findAD w.ads aid with
    | some ad => match ad.status with | .rejected e => some e | _ => none
    | none => none

/-! ## Object identity of the `State`, and the resource handle

`trackedFunction` (lines 51-63) constructs exactly one `State` and hands the
resource runtime a callback that closes over it:

```js
export function trackedFunction(context, fn) {
  const state = new State(fn);
  let destroyable = resource(context, () => { state.retry(); return state; });
  associateDestroyableChild(destroyable, state);
  return destroyable;
}
```

The function-based resource runtime (`core/function-based`) is not part of
the sources here (only its type declarations are), so reads of the handle
are modelled from the spec.  Object identity of `State` instances is
modelled by a numeric token. -/

/-- The embedding of `trackedFunction`'s resource callback
`() => { state.retry(); return state; }`: running it performs the
synchronous segment of `retry` (the source function returned promise `p`)
and returns the one `State` instance (identified by `sid`) that
`trackedFunction` constructed. -/
structure Handle where
  stateId : Nat
  eval : World → Nat → World × Nat

/-- `trackedFunction` (lines 51-63): builds one `State` (identity `sid`),
and a resource whose callback retries and returns that same `State`. -/
def trackedFunction (sid : Nat) : Handle :=
  { stateId := sid
    eval := fun w p => ((retrySync w (Except.ok p)).1, sid) }

/-- Modelled from the spec: one read of `Handle.current` by the resource
runtime (`core/function-based` is not under `src/`): if there is a cached
value and dependencies are unchanged (`stale = false`), the cached value is
returned without re-invoking the resource callback; otherwise the callback
runs (its `retry` sees the source function return promise `p`) and its
return value is cached. -/
def readCurrent (h : Handle) (w : World) (cache : Option Nat) (stale : Bool) (p : Nat) :
    World × Nat :=
  match cache with
  | some v => if stale then h.eval w p else (w, v)
  | none => h.eval w p

/-- A sequence of reads of `Handle.current`; each list entry says whether
dependencies changed before that read and which promise the source function
returns if the callback is re-invoked.  Returns the value observed by each
read. -/
def readTrace (h : Handle) (w : World) (cache : Option Nat) :
    List (Bool × Nat) → List Nat
  | [] => []
  | (stale, p) :: rest =>
    let r := readCurrent h w cache stale p
    r.2 :: readTrace h r.1 (some r.2) rest

/-! ## Invariants used for the stale-settlement argument -/

/-- The portion of the queue strictly before the first `retryCont` item. -/
def preCont : List Microtask → List Microtask
  | [] => []
  | Microtask.retryCont :: _ => []
  | t :: rest => t :: preCont rest

/-- The wrapper's visible state reflects the settlement of promise `pa`:
the current async-result is attached to `pa` and is no longer pending. -/
def reflectsSettlement (w : World) (pa : Nat) : Prop :=
  ∃ aid ad, w.data = some aid ∧ findAD w.ads aid = some ad ∧
    ad.promise = pa ∧ ad.status ≠ ADStatus.pending

/-- No async-result attached to `pa` has recorded a settlement. -/
def sSafe (w : World) (pa : Nat) : Prop :=
  ∀ aid ad, findAD w.ads aid = some ad → ad.promise = pa →
    ad.status = ADStatus.pending

/-- Either the `State` is destroyed (so no continuation will ever commit a
new async-result), or the captured promise is not `pa`. -/
def promiseSafe (w : World) (pa : Nat) : Prop :=
  w.stateDestroyed = true ∨ w.promise ≠ some pa

/-- The current async-result, if any, is destroyed or not attached to
`pa`. -/
def cInv (w : World) (pa : Nat) : Prop :=
  ∀ aid ad, w.data = some aid → findAD w.ads aid = some ad →
    ad.destroyed = true ∨ ad.promise ≠ pa

/-- A `retry` continuation is pending in the queue, and no settle handler
ahead of it targets an async-result attached to `pa`. -/
def qInv (w : World) (pa : Nat) : Prop :=
  Microtask.retryCont ∈ w.queue ∧
  ∀ aid o, Microtask.settleHandler aid o ∈ preCont w.queue →
    ∀ ad, findAD w.ads aid = some ad → ad.promise ≠ pa

/-- The current async-result, if any, is destroyed. -/
def currentSafe (w : World) : Prop :=
  ∀ aid ad, w.data = some aid → findAD w.ads aid = some ad → ad.destroyed = true

/-- Well-formedness of reachable worlds: registry keys are distinct and
below the allocator; a non-pending async-result has a settled promise; a
settle handler in the queue targets an async-result whose promise has
settled, and an identifier below the allocator; a non-current async-result
is destroyed; once the `State` is destroyed, so is its current
async-result. -/
structure WF (w : World) : Prop where
  nodupKeys : (w.ads.map Prod.fst).Nodup
  keysLt : ∀ aid ad, findAD w.ads aid = some ad → aid < w.nextAD
  settledOfStatus : ∀ aid ad, findAD w.ads aid = some ad →
    ad.status ≠ ADStatus.pending → lookupSettled w.settled ad.promise ≠ none
  handlerSettled : ∀ aid o, Microtask.settleHandler aid o ∈ w.queue →
    ∀ ad, findAD w.ads aid = some ad → lookupSettled w.settled ad.promise ≠ none
  handlerLt : ∀ aid o, Microtask.settleHandler aid o ∈ w.queue → aid < w.nextAD
  orphansDestroyed : ∀ aid ad, findAD w.ads aid = some ad →
    w.data ≠ some aid → ad.destroyed = true
  destroyedCascade : w.stateDestroyed = true → ∀ aid ad, w.data = some aid →
    findAD w.ads aid = some ad → ad.destroyed = true

/-- The combined invariant carried from the moment the superseding
invocation B starts. -/
def goodB (w : World) (pa : Nat) : Prop :=
  WF w ∧ sSafe w pa ∧ promiseSafe w pa ∧ (cInv w pa ∨ qInv w pa)

/-! ## Basic lemmas about the registry and the queue -/

@[simp]
lemma findAD_nil (aid : Nat) : findAD [] aid = none := rfl

@[simp]
lemma findAD_cons (i : Nat) (ad : AsyncData) (tl : List (Nat × AsyncData)) (aid : Nat) :
    findAD ((i, ad) :: tl) aid = if i = aid then some ad else findAD tl aid := rfl

lemma findAD_updateAD (ads : List (Nat × AsyncData)) (aid x : Nat) (f : AsyncData → AsyncData) :
    findAD (updateAD ads aid f) x =
      if x = aid then Option.map f (findAD ads x) else findAD ads x := by
  induction ads with
  | nil => simp [updateAD]
  | cons hd tl ih =>
    obtain ⟨i, ad⟩ := hd
    simp only [updateAD, List.map_cons] at ih ⊢
    by_cases hi : i = aid
    · subst hi
      by_cases hx : i = x
      · subst hx
        simp [ih]
      · simp [hx, Ne.symm hx, ih]
    · by_cases hx : i = x
      · subst hx
        have hxa : ¬ i = aid := hi
        simp [hi, hxa]
      · simp [hi, hx, ih]

lemma findAD_append (l1 l2 : List (Nat × AsyncData)) (x : Nat) :
    findAD (l1 ++ l2) x = ((findAD l1 x).rec (findAD l2 x) (fun ad => some ad)) := by
  induction l1 with
  | nil => simp
  | cons hd tl ih =>
    obtain ⟨i, ad⟩ := hd
    by_cases hi : i = x <;> simp [hi, ih]

lemma findAD_append_left (l1 l2 : List (Nat × AsyncData)) (x : Nat) (ad : AsyncData)
    (h : findAD l1 x = some ad) : findAD (l1 ++ l2) x = some ad := by
  rw [findAD_append, h]

lemma findAD_append_right (l1 l2 : List (Nat × AsyncData)) (x : Nat)
    (h : findAD l1 x = none) : findAD (l1 ++ l2) x = findAD l2 x := by
  rw [findAD_append, h]

lemma findAD_isSome_of_mem_keys (ads : List (Nat × AsyncData)) (x : Nat)
    (h : x ∈ ads.map Prod.fst) : (findAD ads x).isSome := by
  induction ads with
  | nil => simp at h
  | cons hd tl ih =>
    obtain ⟨i, ad⟩ := hd
    simp only [List.map_cons, List.mem_cons] at h
    by_cases hi : i = x
    · simp [hi]
    · rcases h with h | h
      · exact absurd h.symm hi
      · simp [hi, ih h]

lemma findAD_of_mem_nodup (ads : List (Nat × AsyncData)) (i : Nat) (ad : AsyncData)
    (hnd : (ads.map Prod.fst).Nodup) (hm : (i, ad) ∈ ads) : findAD ads i = some ad := by
  induction ads with
  | nil => simp at hm
  | cons hd tl ih =>
    obtain ⟨j, ad'⟩ := hd
    simp only [List.map_cons, List.nodup_cons] at hnd
    rcases List.mem_cons.1 hm with h | h
    · rw [Prod.mk.injEq] at h
      obtain ⟨h1, h2⟩ := h
      subst h1
      subst h2
      simp
    · have hmem : i ∈ tl.map Prod.fst := List.mem_map.2 ⟨(i, ad), h, rfl⟩
      have hj : j ≠ i := by
        intro hji
        rw [hji] at hnd
        exact hnd.1 hmem
      simp [hj, ih hnd.2 h]

lemma keys_updateAD (ads : List (Nat × AsyncData)) (aid : Nat) (f : AsyncData → AsyncData) :
    (updateAD ads aid f).map Prod.fst = ads.map Prod.fst := by
  induction ads with
  | nil => rfl
  | cons hd tl ih =>
    obtain ⟨i, ad⟩ := hd
    simp only [updateAD, List.map_cons] at ih ⊢
    by_cases hi : i = aid
    · simp [hi, ih]
    · simp [hi, ih]

@[simp]
lemma lookupSettled_nil (p : Nat) : lookupSettled [] p = none := rfl

@[simp]
lemma lookupSettled_cons (q : Nat) (o : Outcome) (s : List (Nat × Outcome)) (p : Nat) :
    lookupSettled ((q, o) :: s) p = if q = p then some o else lookupSettled s p := rfl

lemma lookupSettled_cons_ne_none (q : Nat) (o : Outcome) (s : List (Nat × Outcome)) (p : Nat)
    (h : lookupSettled s p ≠ none) : lookupSettled ((q, o) :: s) p ≠ none := by
  by_cases hq : q = p <;> simp [hq, h]

@[simp]
lemma preCont_nil : preCont [] = [] := rfl

@[simp]
lemma preCont_cons_cont (q : List Microtask) : preCont (Microtask.retryCont :: q) = [] := rfl

@[simp]
lemma preCont_cons_handler (aid : Nat) (o : Outcome) (q : List Microtask) :
    preCont (Microtask.settleHandler aid o :: q) =
      Microtask.settleHandler aid o :: preCont q := rfl

lemma mem_of_mem_preCont (q : List Microtask) (t : Microtask) (h : t ∈ preCont q) : t ∈ q := by
  induction q with
  | nil => simp at h
  | cons hd tl ih =>
    cases hd with
    | retryCont => simp at h
    | settleHandler aid o =>
      rcases List.mem_cons.1 (by simpa using h) with h | h
      · simp [h]
      · exact List.mem_cons.2 (Or.inr (ih h))

lemma preCont_append_of_mem (q xs : List Microtask) (h : Microtask.retryCont ∈ q) :
    preCont (q ++ xs) = preCont q := by
  induction q with
  | nil => simp at h
  | cons hd tl ih =>
    cases hd with
    | retryCont => simp
    | settleHandler aid o =>
      have h' : Microtask.retryCont ∈ tl := by
        rcases List.mem_cons.1 h with h | h
        · exact absurd h (by simp)
        · exact h
      simp [ih h']

/-! ## Claim C6: the `Promise.resolve(42)` scenario -/

/-- Claim C6: for a wrapper whose source function returns `Promise.resolve(42)`
(modelled as promise `0`, already settled with value `42`): before the
microtask queue drains, `state` reads `"UNSTARTED"` right after the call and
`"PENDING"` after the continuation commits the async-result — in both cases
one of `"UNSTARTED"`/`"PENDING"`; once the queue fully drains, `state` is
`"RESOLVED"` and `value` is `42`. -/
theorem promiseResolve42Scenario :
    (stateGet (run { initialWorld with settled := [(0, Outcome.resolved 42)] }
        [Event.callRetry 0]) = "UNSTARTED" ∨
      stateGet (run { initialWorld with settled := [(0, Outcome.resolved 42)] }
        [Event.callRetry 0]) = "PENDING") ∧
    (stateGet (run { initialWorld with settled := [(0, Outcome.resolved 42)] }
        [Event.callRetry 0, Event.drain]) = "UNSTARTED" ∨
      stateGet (run { initialWorld with settled := [(0, Outcome.resolved 42)] }
        [Event.callRetry 0, Event.drain]) = "PENDING") ∧
    stateGet (run { initialWorld with settled := [(0, Outcome.resolved 42)] }
      [Event.callRetry 0, Event.drain, Event.drain]) = "RESOLVED" ∧
    valueGet (run { initialWorld with settled := [(0, Outcome.resolved 42)] }
      [Event.callRetry 0, Event.drain, Event.drain]) = some 42 :=
  ⟨Or.inl rfl, Or.inr rfl, rfl, rfl⟩

/-! ## Claim C3: a synchronous throw commits nothing -/

/-- Claim C3: if the source function throws synchronously before returning a
promise, `retry()` surfaces the throw to its caller (the promise the async
function returns rejects with it) and the wrapper's observable state —
`state`, `value`, `error` and the `data` reference — is unchanged from
before the call; indeed the whole world is unchanged. -/
theorem retryThrowLeavesStateUnchanged (w : World) (e : Nat)
    (h : w.stateDestroyed = false) :
    (retrySync w (Except.error e)).2 = Except.error e ∧
    (retrySync w (Except.error e)).1 = w ∧
    stateGet (retrySync w (Except.error e)).1 = stateGet w ∧
    valueGet (retrySync w (Except.error e)).1 = valueGet w ∧
    errorGet (retrySync w (Except.error e)).1 = errorGet w ∧
    (retrySync w (Except.error e)).1.data = w.data := by
  simp [retrySync, h]

/-- Witness for C3 at a concrete world. -/
theorem retryThrowLeavesStateUnchangedWitness :
    (retrySync initialWorld (Except.error 7)).2 = Except.error 7 ∧
    (retrySync initialWorld (Except.error 7)).1 = initialWorld :=
  ⟨(retryThrowLeavesStateUnchanged initialWorld 7 rfl).1,
   (retryThrowLeavesStateUnchanged initialWorld 7 rfl).2.1⟩

/-! ## Claim C10: `value` and `error` are total -/

/-- Claim C10: the `value` accessor returns null whenever the current result
is absent or not resolved — that is, in every state other than
`"RESOLVED"` (UNSTARTED, PENDING, REJECTED) — and the `error` accessor
returns null whenever no async-result exists. -/
theorem valueErrorTotal (w : World) :
    (stateGet w = "UNSTARTED" ∨ stateGet w = "PENDING" ∨ stateGet w = "REJECTED" →
      valueGet w = none) ∧
    (isResolvedGet w = false → valueGet w = none) ∧
    (w.data = none → errorGet w = none) := by
  refine ⟨?_, ?_, ?_⟩
  · intro h
    cases hd : w.data with
    | none => simp [valueGet, hd]
    | some aid =>
      cases hf : findAD w.ads aid with
      | none => simp [valueGet, hd, hf]
      | some ad =>
        cases hs : ad.status with
        | pending => simp [valueGet, hd, hf, hs]
        | rejected e => simp [valueGet, hd, hf, hs]
        | resolved v =>
          exfalso
          rcases h with h | h | h <;>
            simp [stateGet, hd, hf, AsyncData.state, hs] at h
  · intro h
    cases hd : w.data with
    | none => simp [valueGet, hd]
    | some aid =>
      cases hf : findAD w.ads aid with
      | none => simp [valueGet, hd, hf]
      | some ad =>
        cases hs : ad.status with
        | pending => simp [valueGet, hd, hf, hs]
        | rejected e => simp [valueGet, hd, hf, hs]
        | resolved v => simp [isResolvedGet, hd, hf, hs] at h
  · intro h
    simp [errorGet, h]

/-- Witness for C10 at a concrete world. -/
theorem valueErrorTotalWitness :
    valueGet initialWorld = none ∧ errorGet initialWorld = none :=
  ⟨(valueErrorTotal initialWorld).1 (Or.inl rfl),
   (valueErrorTotal initialWorld).2.2 rfl⟩

/-! ## Claim C9: `isPending` covers UNSTARTED and PENDING -/

/-- Claim C9: before any invocation has produced an async-result
(`data` null), `isPending` is true even though `state` reads `"UNSTARTED"`;
in general, whenever the current `data` reference points to an allocated
async-result, `isPending` is true exactly in the UNSTARTED and PENDING
states — so it is not equivalent to `state === "PENDING"` — and false
exactly once the current result has resolved or rejected. -/
theorem isPendingNotJustPending (w : World)
    (h : ∀ aid, w.data = some aid → (findAD w.ads aid).isSome) :
    (w.data = none → isPendingGet w = true ∧ stateGet w = "UNSTARTED") ∧
    (isPendingGet w = true ↔ (stateGet w = "UNSTARTED" ∨ stateGet w = "PENDING")) ∧
    (isPendingGet w = false ↔ (isResolvedGet w = true ∨ isRejectedGet w = true)) := by
  cases hd : w.data with
  | none =>
    refine ⟨fun _ => ⟨?_, ?_⟩, ?_, ?_⟩ <;>
      simp [isPendingGet, stateGet, isResolvedGet, isRejectedGet, hd]
  | some aid =>
    have hs := h aid hd
    cases hf : findAD w.ads aid with
    | none => rw [hf] at hs; simp at hs
    | some ad =>
      refine ⟨fun hn => absurd hn (by simp), ?_, ?_⟩ <;>
        cases hst : ad.status <;>
          simp [isPendingGet, stateGet, isResolvedGet, isRejectedGet,
            AsyncData.state, hd, hf, hst]

/-- Witness for C9 at a concrete world. -/
theorem isPendingNotJustPendingWitness :
    isPendingGet initialWorld = true ∧ stateGet initialWorld = "UNSTARTED" :=
  (isPendingNotJustPending initialWorld (by intro aid h; simp [initialWorld] at h)).1 rfl

/-! ## Claim C7: idempotent teardown -/

lemma markDestroyed_idem (ads : List (Nat × AsyncData)) (aid : Nat) :
    markDestroyed (markDestroyed ads aid) aid = markDestroyed ads aid := by
  induction ads with
  | nil => rfl
  | cons hd tl ih =>
    obtain ⟨i, ad⟩ := hd
    simp only [markDestroyed, updateAD, List.map_cons] at ih ⊢
    by_cases hi : i = aid
    · simp [hi, ih]
    · simp [hi, ih]

lemma destroyState_stateDestroyed (w : World) :
    (destroyState w).stateDestroyed = true := by
  unfold destroyState
  cases w.data <;> rfl

lemma clearPrev_destroyState (w : World) :
    clearPrev (destroyState w) = destroyState w := by
  unfold destroyState clearPrev
  cases hd : w.data with
  | none => simp
  | some aid =>
    simp only [markDestroyed]
    rw [findAD_updateAD]
    cases hf : findAD w.ads aid with
    | none => simp
    | some ad => simp

/-- Claim C7: idempotent teardown.  Destroying an already-destroyed `State`
is a no-op — a second `destroy` produces the identical world and signals no
error — and every destruction path in the wrapper guards on the destroyed
flags before acting: on a destroyed `State` the synchronous segment of
`retry` returns immediately without invoking anything, and the continuation
leaves everything unchanged (in particular it destroys nothing and commits
nothing), only logging that it aborted. -/
theorem destroyIdempotent (w : World) (r : Except Nat Nat) :
    destroyState (destroyState w) = destroyState w ∧
    (retrySync (destroyState w) r).1 = destroyState w ∧
    (retrySync (destroyState w) r).2 = Except.ok false ∧
    runRetryCont (destroyState w) =
      { destroyState w with
          log := (destroyState w).log ++ [Action.abortedDestroyed] } := by
  refine ⟨?_, ?_, ?_, ?_⟩
  · show destroyState (destroyState w) = destroyState w
    unfold destroyState
    cases hd : w.data with
    | none => simp
    | some aid => simp [markDestroyed_idem]
  · simp [retrySync, destroyState_stateDestroyed]
  · simp [retrySync, destroyState_stateDestroyed]
  · unfold runRetryCont
    rw [clearPrev_destroyState]
    simp [commitNew, destroyState_stateDestroyed]

/-! ## Claim C2: ordering of the `retry` phases -/

lemma clearPrev_fields (w : World) :
    (clearPrev w).queue = w.queue ∧ (clearPrev w).promise = w.promise ∧
    (clearPrev w).stateDestroyed = w.stateDestroyed ∧
    (clearPrev w).nextAD = w.nextAD ∧ (clearPrev w).settled = w.settled := by
  unfold clearPrev
  cases hd : w.data with
  | none => simp
  | some aid =>
    cases hf : findAD w.ads aid with
    | none => simp [hf]
    | some ad =>
      by_cases hdd : ad.destroyed = true <;> simp [hf, hdd]

lemma clearPrev_log (w : World) :
    (clearPrev w).log = w.log ∨
    ∃ a, (clearPrev w).log = w.log ++ [Action.destroyedPrev a] ∧ w.data = some a := by
  unfold clearPrev
  cases hd : w.data with
  | none => simp [hd]
  | some aid =>
    cases hf : findAD w.ads aid with
    | none => simp [hf]
    | some ad =>
      by_cases hdd : ad.destroyed = true
      · simp [hf, hdd]
      · exact Or.inr ⟨aid, by simp [hf, hdd], rfl⟩

lemma clearPrev_data (w : World) :
    (clearPrev w).data = w.data ∨ (clearPrev w).data = none := by
  unfold clearPrev
  cases hd : w.data with
  | none => simp [hd]
  | some aid =>
    cases hf : findAD w.ads aid with
    | none => simp [hf, hd]
    | some ad =>
      by_cases hdd : ad.destroyed = true <;> simp [hf, hdd, hd]

/-- Claim C2: for a `retry()` on a live `State`, run to completion (the
synchronous segment followed by draining its continuation from the front of
the queue): the source function is invoked synchronously and its promise
stored before any suspension, exactly one microtask — the continuation —
is enqueued by the single yield, and the continuation first (conditionally)
destroys the previous async-result and only then constructs a fresh one
from the captured promise and stores it as current; the log extension shows
the order invoke, yield, (destroy previous)?, create. -/
theorem retryPhaseOrder (w : World) (p : Nat)
    (h1 : w.stateDestroyed = false) (h2 : w.queue = []) :
    (retrySync w (Except.ok p)).1.promise = some p ∧
    (retrySync w (Except.ok p)).1.queue = [Microtask.retryCont] ∧
    (retrySync w (Except.ok p)).1.log = w.log ++ [Action.invokedFn p, Action.yielded] ∧
    ∃ mid,
      (drainOne (retrySync w (Except.ok p)).1).log =
        w.log ++ [Action.invokedFn p, Action.yielded] ++ mid ++
          [Action.createdResult w.nextAD p] ∧
      (mid = [] ∨ ∃ a, mid = [Action.destroyedPrev a] ∧ w.data = some a) ∧
      (drainOne (retrySync w (Except.ok p)).1).data = some w.nextAD := by
  refine ⟨by simp [retrySync, h1], by simp [retrySync, h1, h2],
    by simp [retrySync, h1], ?_⟩
  cases hd : w.data with
  | none =>
    cases hls : lookupSettled w.settled p <;>
      exact ⟨[], by simp [retrySync, h1, h2, drainOne, runRetryCont, clearPrev,
          commitNew, newAsyncData, hd, hls], Or.inl rfl,
        by simp [retrySync, h1, h2, drainOne, runRetryCont, clearPrev, commitNew,
          newAsyncData, hd, hls]⟩
  | some aid =>
    cases hf : findAD w.ads aid with
    | none =>
      cases hls : lookupSettled w.settled p <;>
        exact ⟨[], by simp [retrySync, h1, h2, drainOne, runRetryCont, clearPrev,
            commitNew, newAsyncData, hd, hf, hls], Or.inl rfl,
          by simp [retrySync, h1, h2, drainOne, runRetryCont, clearPrev, commitNew,
            newAsyncData, hd, hf, hls]⟩
    | some ad =>
      by_cases hdd : ad.destroyed = true
      · cases hls : lookupSettled w.settled p <;>
          exact ⟨[], by simp [retrySync, h1, h2, drainOne, runRetryCont, clearPrev,
              commitNew, newAsyncData, hd, hf, hdd, hls], Or.inl rfl,
            by simp [retrySync, h1, h2, drainOne, runRetryCont, clearPrev, commitNew,
              newAsyncData, hd, hf, hdd, hls]⟩
      · cases hls : lookupSettled w.settled p <;>
          exact ⟨[Action.destroyedPrev aid], by simp [retrySync, h1, h2, drainOne,
              runRetryCont, clearPrev, commitNew, newAsyncData, hd, hf, hdd, hls],
            Or.inr ⟨aid, rfl, rfl⟩,
            by simp [retrySync, h1, h2, drainOne, runRetryCont, clearPrev, commitNew,
              newAsyncData, hd, hf, hdd, hls]⟩

/-- Witness for C2 at a concrete world. -/
theorem retryPhaseOrderWitness :
    (retrySync initialWorld (Except.ok 0)).1.promise = some 0 ∧
    (retrySync initialWorld (Except.ok 0)).1.queue = [Microtask.retryCont] ∧
    (retrySync initialWorld (Except.ok 0)).1.log =
      initialWorld.log ++ [Action.invokedFn 0, Action.yielded] :=
  ⟨(retryPhaseOrder initialWorld 0 rfl rfl).1,
   (retryPhaseOrder initialWorld 0 rfl rfl).2.1,
   (retryPhaseOrder initialWorld 0 rfl rfl).2.2.1⟩

/-! ## Characterizations of the continuation's pieces -/

lemma clearPrev_safe (w : World) (aid : Nat) (ad : AsyncData)
    (h1 : w.data = some aid) (h2 : findAD w.ads aid = some ad)
    (hdd : ad.destroyed = false) :
    (clearPrev w).ads = markDestroyed w.ads aid ∧ (clearPrev w).data = none ∧
    (clearPrev w).log = w.log ++ [Action.destroyedPrev aid] := by
  simp [clearPrev, h1, h2, hdd]

lemma clearPrev_alreadyDestroyed (w : World) (aid : Nat) (ad : AsyncData)
    (h1 : w.data = some aid) (h2 : findAD w.ads aid = some ad)
    (hdd : ad.destroyed = true) : clearPrev w = w := by
  simp [clearPrev, h1, h2, hdd]

lemma commitNew_live (w : World) (p : Nat) (hflag : w.stateDestroyed = false)
    (hp : w.promise = some p) : commitNew w = newAsyncData w p := by
  simp [commitNew, hflag, hp]

lemma commitNew_dead (w : World) (hflag : w.stateDestroyed = true) :
    commitNew w = { w with log := w.log ++ [Action.abortedDestroyed] } := by
  simp [commitNew, hflag]

lemma commitNew_noPromise (w : World) (hflag : w.stateDestroyed = false)
    (hp : w.promise = none) : commitNew w = w := by
  simp [commitNew, hflag, hp]

lemma newAsyncData_fields (w : World) (p : Nat) :
    (newAsyncData w p).ads = w.ads ++ [(w.nextAD, ⟨p, ADStatus.pending, false⟩)] ∧
    (newAsyncData w p).data = some w.nextAD ∧
    (newAsyncData w p).log = w.log ++ [Action.createdResult w.nextAD p] ∧
    (newAsyncData w p).promise = w.promise ∧
    (newAsyncData w p).settled = w.settled ∧
    (newAsyncData w p).stateDestroyed = w.stateDestroyed ∧
    (newAsyncData w p).nextAD = w.nextAD + 1 := by
  unfold newAsyncData
  cases hls : lookupSettled w.settled p <;> simp

/-! ## Claim C4: the continuation aborts on a destroyed `State` -/

lemma clearPrev_log_mem (w : World) (a : Action) (h : a ∈ (clearPrev w).log) :
    a ∈ w.log ∨ ∃ x, a = Action.destroyedPrev x := by
  rcases clearPrev_log w with hl | ⟨x, hl, _⟩
  · rw [hl] at h
    exact Or.inl h
  · rw [hl] at h
    rcases List.mem_append.1 h with h | h
    · exact Or.inl h
    · exact Or.inr ⟨x, by simpa using h⟩

/-- Claim C4: if the `State` has been destroyed (or is being destroyed) by
the time `retry`'s yield completes, the continuation aborts without
constructing a new async-result: nothing is allocated, no `createdResult`
action is logged, and `data` is never assigned a new result — it is left as
it was or cleared to null by the preceding destroy-and-clear step. -/
theorem retryAbortsWhenDestroyed (w : World) (h : w.stateDestroyed = true) :
    (runRetryCont w).nextAD = w.nextAD ∧
    ((runRetryCont w).data = w.data ∨ (runRetryCont w).data = none) ∧
    (∀ a p, Action.createdResult a p ∈ (runRetryCont w).log →
      Action.createdResult a p ∈ w.log) := by
  have hflag : (clearPrev w).stateDestroyed = true := by
    rw [(clearPrev_fields w).2.2.1]
    exact h
  have hcont : runRetryCont w =
      { clearPrev w with log := (clearPrev w).log ++ [Action.abortedDestroyed] } := by
    unfold runRetryCont
    exact commitNew_dead _ hflag
  refine ⟨?_, ?_, ?_⟩
  · rw [hcont]
    exact (clearPrev_fields w).2.2.2.1
  · rw [hcont]
    exact clearPrev_data w
  · intro a p hmem
    rw [hcont] at hmem
    simp only [List.mem_append] at hmem
    rcases hmem with hmem | hmem
    · rcases clearPrev_log_mem w _ hmem with hm | ⟨x, hx⟩
      · exact hm
      · exact absurd hx (by simp)
    · simp at hmem

/-- Witness for C4 at a concrete world. -/
theorem retryAbortsWhenDestroyedWitness :
    (runRetryCont { initialWorld with stateDestroyed := true }).nextAD =
      ({ initialWorld with stateDestroyed := true } : World).nextAD ∧
    ((runRetryCont { initialWorld with stateDestroyed := true }).data =
        ({ initialWorld with stateDestroyed := true } : World).data ∨
      (runRetryCont { initialWorld with stateDestroyed := true }).data = none) ∧
    (∀ a p, Action.createdResult a p ∈
        (runRetryCont { initialWorld with stateDestroyed := true }).log →
      Action.createdResult a p ∈ ({ initialWorld with stateDestroyed := true } : World).log) :=
  retryAbortsWhenDestroyed { initialWorld with stateDestroyed := true } rfl

/-! ## Claim C5: the previous async-result is destroyed first, unless unsafe -/

/-- Claim C5: when `retry`'s continuation runs with a previous async-result
present: if that result is not already (being) destroyed, it is destroyed
and the reference cleared before the brand-new result is created — on a
live `State` with captured promise `p` the log extension is exactly
`destroy previous` then `create fresh`, and the fresh result becomes
current; if the previous result is already mid-destruction it is left
alone: its registry entry is untouched and no destruction is logged. -/
theorem retryDestroysPrevFirst (w : World) (aid : Nat) (ad : AsyncData)
    (h1 : w.data = some aid) (h2 : findAD w.ads aid = some ad) :
    (ad.destroyed = false →
      findAD (runRetryCont w).ads aid = some { ad with destroyed := true } ∧
      ∃ tail, (runRetryCont w).log = w.log ++ Action.destroyedPrev aid :: tail) ∧
    (ad.destroyed = false → w.stateDestroyed = false → ∀ p, w.promise = some p →
      (runRetryCont w).log =
        w.log ++ [Action.destroyedPrev aid, Action.createdResult w.nextAD p] ∧
      (runRetryCont w).data = some w.nextAD) ∧
    (ad.destroyed = true →
      findAD (runRetryCont w).ads aid = some ad ∧
      ∀ x, Action.destroyedPrev x ∈ (runRetryCont w).log →
        Action.destroyedPrev x ∈ w.log) := by
  have hcf := clearPrev_fields w
  refine ⟨?_, ?_, ?_⟩
  · intro hdd
    obtain ⟨hAds, hData, hLog⟩ := clearPrev_safe w aid ad h1 h2 hdd
    have hfind : findAD (clearPrev w).ads aid = some { ad with destroyed := true } := by
      rw [hAds, markDestroyed, findAD_updateAD]
      simp [h2]
    unfold runRetryCont
    by_cases hflag : (clearPrev w).stateDestroyed = true
    · rw [commitNew_dead _ hflag]
      refine ⟨by simpa using hfind, ⟨[Action.abortedDestroyed], ?_⟩⟩
      show (clearPrev w).log ++ [Action.abortedDestroyed] = _
      rw [hLog]
      simp
    · have hflag' : (clearPrev w).stateDestroyed = false := by simpa using hflag
      cases hp : (clearPrev w).promise with
      | none =>
        rw [commitNew_noPromise _ hflag' hp]
        exact ⟨hfind, ⟨[], by rw [hLog]⟩⟩
      | some p =>
        rw [commitNew_live _ p hflag' hp]
        have hfields := newAsyncData_fields (clearPrev w) p
        refine ⟨?_, ⟨[Action.createdResult (clearPrev w).nextAD p], ?_⟩⟩
        · rw [hfields.1]
          exact findAD_append_left _ _ _ _ hfind
        · rw [hfields.2.2.1, hLog]
          simp
  · intro hdd hflag p hp
    obtain ⟨hAds, hData, hLog⟩ := clearPrev_safe w aid ad h1 h2 hdd
    have hflag' : (clearPrev w).stateDestroyed = false := by
      rw [hcf.2.2.1]
      exact hflag
    have hp' : (clearPrev w).promise = some p := by
      rw [hcf.2.1]
      exact hp
    unfold runRetryCont
    rw [commitNew_live _ p hflag' hp']
    have hfields := newAsyncData_fields (clearPrev w) p
    constructor
    · rw [hfields.2.2.1, hLog, hcf.2.2.2.1]
      simp
    · rw [hfields.2.1, hcf.2.2.2.1]
  · intro hdd
    have hclear := clearPrev_alreadyDestroyed w aid ad h1 h2 hdd
    unfold runRetryCont
    rw [hclear]
    by_cases hflag : w.stateDestroyed = true
    · rw [commitNew_dead _ hflag]
      refine ⟨by simpa using h2, ?_⟩
      intro x hmem
      have hmem' : Action.destroyedPrev x ∈ w.log ++ [Action.abortedDestroyed] := hmem
      rcases List.mem_append.1 hmem' with hm | hm
      · exact hm
      · simp at hm
    · have hflag' : w.stateDestroyed = false := by simpa using hflag
      cases hp : w.promise with
      | none =>
        rw [commitNew_noPromise _ hflag' hp]
        exact ⟨h2, fun x hmem => hmem⟩
      | some p =>
        rw [commitNew_live _ p hflag' hp]
        have hfields := newAsyncData_fields w p
        refine ⟨?_, ?_⟩
        · rw [hfields.1]
          exact findAD_append_left _ _ _ _ h2
        · intro x hmem
          rw [hfields.2.2.1] at hmem
          rcases List.mem_append.1 hmem with hm | hm
          · exact hm
          · simp at hm

/-- Witness for C5 at a concrete world: after one completed invocation the
current async-result `0` (attached to promise 1) exists; a second
continuation destroys it and installs the fresh result `1`. -/
theorem retryDestroysPrevFirstWitness :
    findAD (runRetryCont (run initialWorld [Event.callRetry 1, Event.drain])).ads 0 =
      some ⟨1, ADStatus.pending, true⟩ ∧
    (runRetryCont (run initialWorld [Event.callRetry 1, Event.drain])).data = some 1 :=
  ⟨((retryDestroysPrevFirst (run initialWorld [Event.callRetry 1, Event.drain]) 0
      ⟨1, ADStatus.pending, false⟩ rfl rfl).1 rfl).1,
   ((retryDestroysPrevFirst (run initialWorld [Event.callRetry 1, Event.drain]) 0
      ⟨1, ADStatus.pending, false⟩ rfl rfl).2.1 rfl rfl 1 rfl).2⟩

/-! ## Claim C8: reference stability of the handle -/

lemma readTrace_const (sid : Nat) (sched : List (Bool × Nat)) :
    ∀ (w : World) (cache : Option Nat), (cache = none ∨ cache = some sid) →
      ∀ v ∈ readTrace (trackedFunction sid) w cache sched, v = sid := by
  induction sched with
  | nil =>
    intro w cache _ v hv
    simp [readTrace] at hv
  | cons hd tl ih =>
    obtain ⟨stale, p⟩ := hd
    intro w cache hc v hv
    rcases hc with hc | hc
    · simp only [readTrace, readCurrent, hc, trackedFunction] at hv
      rcases List.mem_cons.1 hv with hv | hv
      · exact hv
      · exact ih _ _ (Or.inr rfl) v hv
    · cases stale with
      | true =>
        simp only [readTrace, readCurrent, hc, trackedFunction] at hv
        rcases List.mem_cons.1 hv with hv | hv
        · exact hv
        · exact ih _ _ (Or.inr rfl) v hv
      | false =>
        simp only [readTrace, readCurrent, hc, trackedFunction] at hv
        rcases List.mem_cons.1 hv with hv | hv
        · exact hv.trans rfl
        · exact ih _ _ (Or.inr rfl) v hv

/-- Claim C8: reference stability: `trackedFunction` constructs exactly one
`State`, and the resource callback it hands the runtime returns that same
instance on every evaluation; hence any sequence of reads of the handle —
cached reads and re-evaluations alike — yields the identical `State`
object every time. -/
theorem handleReferenceStable (sid : Nat) (w : World) (sched : List (Bool × Nat)) :
    (∀ (w' : World) (p : Nat), ((trackedFunction sid).eval w' p).2 = sid) ∧
    ∀ v ∈ readTrace (trackedFunction sid) w none sched, v = sid :=
  ⟨fun _ _ => rfl, readTrace_const sid sched w none (Or.inl rfl)⟩

/-- Witness for C8 at a concrete schedule. -/
theorem handleReferenceStableWitness :
    (0 : Nat) ∈ readTrace (trackedFunction 0) initialWorld none [(false, 5), (true, 6)] ∧
    ∀ v ∈ readTrace (trackedFunction 0) initialWorld none [(false, 5), (true, 6)], v = 0 :=
  ⟨by decide,
   (handleReferenceStable 0 initialWorld [(false, 5), (true, 6)]).2⟩

/-! ## Case-analysis helpers for registry updates -/

lemma findAD_markDestroyed_fields (ads : List (Nat × AsyncData)) (aid0 x : Nat)
    (ad : AsyncData) (hf : findAD (markDestroyed ads aid0) x = some ad) :
    ∃ ad0, findAD ads x = some ad0 ∧ ad.promise = ad0.promise ∧
      ad.status = ad0.status ∧ (x = aid0 → ad.destroyed = true) ∧
      (x ≠ aid0 → ad = ad0) := by
  rw [markDestroyed, findAD_updateAD] at hf
  by_cases hx : x = aid0
  · rw [if_pos hx] at hf
    cases hfa : findAD ads x with
    | none => rw [hfa] at hf; exact absurd hf (by simp)
    | some ad0 =>
      rw [hfa] at hf
      have had : { ad0 with destroyed := true } = ad := Option.some.inj hf
      exact ⟨ad0, rfl, by rw [← had], by rw [← had], fun _ => by rw [← had],
        fun hne => absurd hx hne⟩
  · rw [if_neg hx] at hf
    exact ⟨ad, hf, rfl, rfl, fun he => absurd he hx, fun _ => rfl⟩

lemma findAD_setStatus_fields (ads : List (Nat × AsyncData)) (aid0 : Nat) (st : ADStatus)
    (x : Nat) (ad : AsyncData) (hf : findAD (setStatus ads aid0 st) x = some ad) :
    ∃ ad0, findAD ads x = some ad0 ∧ ad.promise = ad0.promise ∧
      ad.destroyed = ad0.destroyed ∧ (x = aid0 → ad.status = st) ∧
      (x ≠ aid0 → ad = ad0) := by
  rw [setStatus, findAD_updateAD] at hf
  by_cases hx : x = aid0
  · rw [if_pos hx] at hf
    cases hfa : findAD ads x with
    | none => rw [hfa] at hf; exact absurd hf (by simp)
    | some ad0 =>
      rw [hfa] at hf
      have had : { ad0 with status := st } = ad := Option.some.inj hf
      exact ⟨ad0, rfl, by rw [← had], by rw [← had], fun _ => by rw [← had],
        fun hne => absurd hx hne⟩
  · rw [if_neg hx] at hf
    exact ⟨ad, hf, rfl, rfl, fun he => absurd he hx, fun _ => rfl⟩

lemma findAD_markDestroyed_self (ads : List (Nat × AsyncData)) (aid : Nat) (ad : AsyncData)
    (h : findAD ads aid = some ad) :
    findAD (markDestroyed ads aid) aid = some { ad with destroyed := true } := by
  rw [markDestroyed, findAD_updateAD]
  simp [h]

lemma findAD_setStatus_self (ads : List (Nat × AsyncData)) (aid : Nat) (st : ADStatus)
    (ad : AsyncData) (h : findAD ads aid = some ad) :
    findAD (setStatus ads aid st) aid = some { ad with status := st } := by
  rw [setStatus, findAD_updateAD]
  simp [h]

lemma findAD_concat_cases (ads : List (Nat × AsyncData)) (n : Nat) (newAd : AsyncData)
    (x : Nat) (ad : AsyncData) (hf : findAD (ads ++ [(n, newAd)]) x = some ad) :
    findAD ads x = some ad ∨ (findAD ads x = none ∧ x = n ∧ ad = newAd) := by
  rw [findAD_append] at hf
  cases hfa : findAD ads x with
  | some ad0 =>
    rw [hfa] at hf
    exact Or.inl hf
  | none =>
    rw [hfa] at hf
    simp only [findAD_cons, findAD_nil] at hf
    by_cases hx : n = x
    · rw [if_pos hx] at hf
      exact Or.inr ⟨rfl, hx.symm, (Option.some.inj hf).symm⟩
    · rw [if_neg hx] at hf
      exact absurd hf (by simp)

lemma handler_notMem_single_cont (aid : Nat) (o : Outcome) :
    Microtask.settleHandler aid o ∉ [Microtask.retryCont] := by simp

/-! ## Record characterizations of each operation -/

lemma destroyState_eq_none (w : World) (hd : w.data = none) :
    destroyState w = { w with stateDestroyed := true } := by
  simp [destroyState, hd]

lemma destroyState_eq_some (w : World) (aid0 : Nat) (hd : w.data = some aid0) :
    destroyState w = { w with
        stateDestroyed := true
        ads := markDestroyed w.ads aid0 } := by
  simp [destroyState, hd]

lemma runSettleHandler_eq_none (w : World) (aid : Nat) (o : Outcome)
    (hf : findAD w.ads aid = none) : runSettleHandler w aid o = w := by
  simp [runSettleHandler, hf]

lemma runSettleHandler_eq_destroyed (w : World) (aid : Nat) (o : Outcome)
    (ad : AsyncData) (hf : findAD w.ads aid = some ad) (hdd : ad.destroyed = true) :
    runSettleHandler w aid o = w := by
  simp [runSettleHandler, hf, hdd]

lemma runSettleHandler_eq_live (w : World) (aid : Nat) (o : Outcome)
    (ad : AsyncData) (hf : findAD w.ads aid = some ad) (hdd : ad.destroyed = false) :
    runSettleHandler w aid o = { w with ads := setStatus w.ads aid o.toStatus } := by
  simp [runSettleHandler, hf, hdd]

lemma clearPrev_eq_none (w : World) (hd : w.data = none) : clearPrev w = w := by
  simp [clearPrev, hd]

lemma clearPrev_eq_nofind (w : World) (aid0 : Nat) (hd : w.data = some aid0)
    (hf : findAD w.ads aid0 = none) : clearPrev w = w := by
  simp [clearPrev, hd, hf]

lemma clearPrev_eq_safe (w : World) (aid0 : Nat) (ad0 : AsyncData)
    (hd : w.data = some aid0) (hf : findAD w.ads aid0 = some ad0)
    (hdd : ad0.destroyed = false) :
    clearPrev w = { w with
        ads := markDestroyed w.ads aid0
        data := none
        log := w.log ++ [Action.destroyedPrev aid0] } := by
  simp [clearPrev, hd, hf, hdd]

lemma newAsyncData_eq_unsettled (w : World) (p : Nat)
    (hls : lookupSettled w.settled p = none) :
    newAsyncData w p = { w with
        ads := w.ads ++ [(w.nextAD, ⟨p, ADStatus.pending, false⟩)]
        data := some w.nextAD
        nextAD := w.nextAD + 1
        log := w.log ++ [Action.createdResult w.nextAD p] } := by
  simp [newAsyncData, hls]

lemma newAsyncData_eq_settled (w : World) (p : Nat) (o : Outcome)
    (hls : lookupSettled w.settled p = some o) :
    newAsyncData w p = { w with
        ads := w.ads ++ [(w.nextAD, ⟨p, ADStatus.pending, false⟩)]
        data := some w.nextAD
        nextAD := w.nextAD + 1
        log := w.log ++ [Action.createdResult w.nextAD p]
        queue := w.queue ++ [Microtask.settleHandler w.nextAD o] } := by
  simp [newAsyncData, hls]
/-! ## Preservation of well-formedness by every step -/

lemma wf_retrySync (w : World) (r : Except Nat Nat) (h : WF w) : WF (retrySync w r).1 := by
  unfold retrySync
  by_cases hflag : w.stateDestroyed = true
  · simpa [hflag] using h
  · simp only [Bool.not_eq_true] at hflag
    cases r with
    | error e => simpa [hflag] using h
    | ok p =>
      simp only [hflag, Bool.false_eq_true, if_false]
      refine ⟨h.nodupKeys, h.keysLt, h.settledOfStatus, ?_, ?_,
        h.orphansDestroyed, fun hcon => absurd hcon (by simp)⟩
      · intro aid o hmem ad hf
        rcases List.mem_append.1 hmem with hm | hm
        · exact h.handlerSettled aid o hm ad hf
        · exact absurd hm (handler_notMem_single_cont aid o)
      · intro aid o hmem
        rcases List.mem_append.1 hmem with hm | hm
        · exact h.handlerLt aid o hm
        · exact absurd hm (handler_notMem_single_cont aid o)

lemma wf_settleStep (w : World) (p : Nat) (o : Outcome) (h : WF w) :
    WF (settleStep w p o) := by
  unfold settleStep
  cases hls : lookupSettled w.settled p with
  | some _ => exact h
  | none =>
    refine ⟨h.nodupKeys, h.keysLt, ?_, ?_, ?_, h.orphansDestroyed, h.destroyedCascade⟩
    · intro aid ad hf hst
      exact lookupSettled_cons_ne_none _ _ _ _ (h.settledOfStatus aid ad hf hst)
    · intro aid o' hmem ad hf
      rcases List.mem_append.1 hmem with hm | hm
      · exact lookupSettled_cons_ne_none _ _ _ _ (h.handlerSettled aid o' hm ad hf)
      · rcases List.mem_filterMap.1 hm with ⟨ia, hia, hfm⟩
        by_cases hp2 : ia.2.promise = p
        · rw [if_pos hp2] at hfm
          have haid : ia.1 = aid := by
            have h2 := Option.some.inj hfm
            injection h2
          have hun : findAD w.ads aid = some ia.2 := by
            rw [← haid]
            exact findAD_of_mem_nodup _ _ _ h.nodupKeys
              (by rcases ia with ⟨i1, i2⟩; exact hia)
          have had : ad = ia.2 := Option.some.inj (hun.symm.trans hf).symm
          rw [had, hp2]
          simp
        · rw [if_neg hp2] at hfm
          exact absurd hfm (by simp)
    · intro aid o' hmem
      rcases List.mem_append.1 hmem with hm | hm
      · exact h.handlerLt aid o' hm
      · rcases List.mem_filterMap.1 hm with ⟨ia, hia, hfm⟩
        by_cases hp2 : ia.2.promise = p
        · rw [if_pos hp2] at hfm
          have haid : ia.1 = aid := by
            have h2 := Option.some.inj hfm
            injection h2
          have hun : findAD w.ads aid = some ia.2 := by
            rw [← haid]
            exact findAD_of_mem_nodup _ _ _ h.nodupKeys
              (by rcases ia with ⟨i1, i2⟩; exact hia)
          exact h.keysLt _ _ hun
        · rw [if_neg hp2] at hfm
          exact absurd hfm (by simp)

lemma wf_destroyState (w : World) (h : WF w) : WF (destroyState w) := by
  cases hd : w.data with
  | none =>
    rw [destroyState_eq_none w hd]
    refine ⟨h.nodupKeys, h.keysLt, h.settledOfStatus, h.handlerSettled, h.handlerLt,
      h.orphansDestroyed, ?_⟩
    intro _ aid ad hdata _
    rw [hd] at hdata
    exact absurd hdata (by simp)
  | some aid0 =>
    rw [destroyState_eq_some w aid0 hd]
    refine ⟨?_, ?_, ?_, ?_, h.handlerLt, ?_, ?_⟩
    · show (List.map Prod.fst (markDestroyed w.ads aid0)).Nodup
      rw [markDestroyed, keys_updateAD]
      exact h.nodupKeys
    · intro aid ad hf
      obtain ⟨ad0, hf0, _, _, _, _⟩ := findAD_markDestroyed_fields _ _ _ _ hf
      exact h.keysLt _ _ hf0
    · intro aid ad hf hst
      obtain ⟨ad0, hf0, hp, hs, _, _⟩ := findAD_markDestroyed_fields _ _ _ _ hf
      rw [hp]
      exact h.settledOfStatus _ _ hf0 (by rw [← hs]; exact hst)
    · intro aid o hmem ad hf
      obtain ⟨ad0, hf0, hp, _, _, _⟩ := findAD_markDestroyed_fields _ _ _ _ hf
      rw [hp]
      exact h.handlerSettled aid o hmem ad0 hf0
    · intro aid ad hf hne
      obtain ⟨ad0, hf0, _, _, hde, hnee⟩ := findAD_markDestroyed_fields _ _ _ _ hf
      by_cases hx : aid = aid0
      · exact hde hx
      · rw [hnee hx]
        refine h.orphansDestroyed _ _ hf0 ?_
        rw [hd]
        intro hcon
        exact hx (Option.some.inj hcon).symm
    · intro _ aid ad hdata hf
      have hx : aid0 = aid := Option.some.inj (hd.symm.trans hdata)
      obtain ⟨ad0, hf0, _, _, hde, _⟩ := findAD_markDestroyed_fields _ _ _ _ hf
      exact hde hx.symm

lemma wf_clearPrev (w : World) (h : WF w) : WF (clearPrev w) := by
  cases hd : w.data with
  | none =>
    rw [clearPrev_eq_none w hd]
    exact h
  | some aid0 =>
    cases hf : findAD w.ads aid0 with
    | none =>
      rw [clearPrev_eq_nofind w aid0 hd hf]
      exact h
    | some ad0 =>
      by_cases hdd : ad0.destroyed = true
      · rw [clearPrev_alreadyDestroyed w aid0 ad0 hd hf hdd]
        exact h
      · have hdd' : ad0.destroyed = false := by simpa using hdd
        rw [clearPrev_eq_safe w aid0 ad0 hd hf hdd']
        refine ⟨?_, ?_, ?_, ?_, h.handlerLt, ?_, ?_⟩
        · show (List.map Prod.fst (markDestroyed w.ads aid0)).Nodup
          rw [markDestroyed, keys_updateAD]
          exact h.nodupKeys
        · intro aid ad hfx
          obtain ⟨adp, hf0, _, _, _, _⟩ := findAD_markDestroyed_fields _ _ _ _ hfx
          exact h.keysLt _ _ hf0
        · intro aid ad hfx hst
          obtain ⟨adp, hf0, hp, hs, _, _⟩ := findAD_markDestroyed_fields _ _ _ _ hfx
          rw [hp]
          exact h.settledOfStatus _ _ hf0 (by rw [← hs]; exact hst)
        · intro aid o hmem ad hfx
          obtain ⟨adp, hf0, hp, _, _, _⟩ := findAD_markDestroyed_fields _ _ _ _ hfx
          rw [hp]
          exact h.handlerSettled aid o hmem adp hf0
        · intro aid ad hfx _
          obtain ⟨adp, hf0, _, _, hde, hnee⟩ := findAD_markDestroyed_fields _ _ _ _ hfx
          by_cases hx : aid = aid0
          · exact hde hx
          · rw [hnee hx]
            refine h.orphansDestroyed _ _ hf0 ?_
            rw [hd]
            intro hcon
            exact hx (Option.some.inj hcon).symm
        · intro _ aid ad hdata _
          exact absurd hdata (by simp)

lemma clearPrev_currentSafe (w : World) : currentSafe (clearPrev w) := by
  cases hd : w.data with
  | none =>
    rw [clearPrev_eq_none w hd]
    intro aid ad hdata _
    rw [hd] at hdata
    exact absurd hdata (by simp)
  | some aid0 =>
    cases hf : findAD w.ads aid0 with
    | none =>
      rw [clearPrev_eq_nofind w aid0 hd hf]
      intro aid ad hdata hfx
      have h1 : aid0 = aid := Option.some.inj (hd.symm.trans hdata)
      rw [← h1] at hfx
      exact absurd (hf.symm.trans hfx) (by simp)
    | some ad0 =>
      by_cases hdd : ad0.destroyed = true
      · rw [clearPrev_alreadyDestroyed w aid0 ad0 hd hf hdd]
        intro aid ad hdata hfx
        have h1 : aid0 = aid := Option.some.inj (hd.symm.trans hdata)
        rw [← h1] at hfx
        have h2 : ad0 = ad := Option.some.inj (hf.symm.trans hfx)
        rw [← h2]
        exact hdd
      · have hdd' : ad0.destroyed = false := by simpa using hdd
        rw [clearPrev_eq_safe w aid0 ad0 hd hf hdd']
        intro aid ad hdata _
        exact absurd hdata (by simp)

lemma wf_newAsyncData (w : World) (p : Nat) (h : WF w) (hc : currentSafe w)
    (hflag : w.stateDestroyed = false) : WF (newAsyncData w p) := by
  have hfresh : findAD w.ads w.nextAD = none := by
    cases hfa : findAD w.ads w.nextAD with
    | none => rfl
    | some ad => exact absurd (h.keysLt _ _ hfa) (by simp)
  have hnodup : ((w.ads ++ [(w.nextAD, (⟨p, ADStatus.pending, false⟩ : AsyncData))]).map
      Prod.fst).Nodup := by
    rw [List.map_append]
    refine List.Nodup.append h.nodupKeys (List.nodup_singleton _) ?_
    intro a ha hb
    simp only [List.map_cons, List.map_nil, List.mem_singleton] at hb
    rw [hb] at ha
    have := findAD_isSome_of_mem_keys _ _ ha
    rw [hfresh] at this
    exact absurd this (by simp)
  have hkeysLt : ∀ aid ad,
      findAD (w.ads ++ [(w.nextAD, (⟨p, ADStatus.pending, false⟩ : AsyncData))]) aid =
        some ad → aid < w.nextAD + 1 := by
    intro aid ad hfx
    rcases findAD_concat_cases _ _ _ _ _ hfx with hfx | ⟨_, hx, _⟩
    · exact Nat.lt_trans (h.keysLt _ _ hfx) (Nat.lt_succ_self _)
    · rw [hx]
      exact Nat.lt_succ_self _
  have hstatus : ∀ aid ad,
      findAD (w.ads ++ [(w.nextAD, (⟨p, ADStatus.pending, false⟩ : AsyncData))]) aid =
        some ad → ad.status ≠ ADStatus.pending →
        lookupSettled w.settled ad.promise ≠ none := by
    intro aid ad hfx hst
    rcases findAD_concat_cases _ _ _ _ _ hfx with hfx | ⟨_, _, had⟩
    · exact h.settledOfStatus _ _ hfx hst
    · rw [had] at hst
      exact absurd rfl hst
  have horphans : ∀ aid ad,
      findAD (w.ads ++ [(w.nextAD, (⟨p, ADStatus.pending, false⟩ : AsyncData))]) aid =
        some ad → (some w.nextAD : Option Nat) ≠ some aid → ad.destroyed = true := by
    intro aid ad hfx hne
    rcases findAD_concat_cases _ _ _ _ _ hfx with hfx | ⟨_, hx, _⟩
    · by_cases hcur : w.data = some aid
      · exact hc aid ad hcur hfx
      · exact h.orphansDestroyed _ _ hfx hcur
    · exact absurd (by rw [hx]) hne
  unfold newAsyncData
  cases hls : lookupSettled w.settled p with
  | none =>
    refine ⟨hnodup, hkeysLt, hstatus, ?_, ?_, horphans, ?_⟩
    · intro aid o hmem ad hfx
      rcases findAD_concat_cases _ _ _ _ _ hfx with hfx | ⟨_, hx, had⟩
      · exact h.handlerSettled aid o hmem ad hfx
      · have := h.handlerLt aid o hmem
        rw [hx] at this
        exact absurd this (by simp)
    · intro aid o hmem
      exact Nat.lt_trans (h.handlerLt aid o hmem) (Nat.lt_succ_self _)
    · intro hcon
      have hcon2 : w.stateDestroyed = true := hcon
      rw [hflag] at hcon2
      exact absurd hcon2 (by simp)
  | some o =>
    refine ⟨hnodup, hkeysLt, hstatus, ?_, ?_, horphans, ?_⟩
    · intro aid o' hmem ad hfx
      rcases List.mem_append.1 hmem with hm | hm
      · rcases findAD_concat_cases _ _ _ _ _ hfx with hfx | ⟨_, hx, had⟩
        · exact h.handlerSettled aid o' hm ad hfx
        · have := h.handlerLt aid o' hm
          rw [hx] at this
          exact absurd this (by simp)
      · simp only [List.mem_singleton] at hm
        have haid : w.nextAD = aid := by
          have := Microtask.settleHandler.injEq .. |>.mp hm.symm
          exact this.1
        rcases findAD_concat_cases _ _ _ _ _ hfx with hfx | ⟨_, _, had⟩
        · rw [← haid] at hfx
          rw [hfresh] at hfx
          exact absurd hfx (by simp)
        · rw [had]
          rw [hls]
          simp
    · intro aid o' hmem
      rcases List.mem_append.1 hmem with hm | hm
      · exact Nat.lt_trans (h.handlerLt aid o' hm) (Nat.lt_succ_self _)
      · simp only [List.mem_singleton] at hm
        have haid : w.nextAD = aid := by
          have := Microtask.settleHandler.injEq .. |>.mp hm.symm
          exact this.1
        rw [← haid]
        exact Nat.lt_succ_self _
    · intro hcon
      have hcon2 : w.stateDestroyed = true := hcon
      rw [hflag] at hcon2
      exact absurd hcon2 (by simp)
lemma wf_commitNew (w : World) (h : WF w) (hc : currentSafe w) : WF (commitNew w) := by
  by_cases hflag : w.stateDestroyed = true
  · rw [commitNew_dead w hflag]
    exact ⟨h.nodupKeys, h.keysLt, h.settledOfStatus, h.handlerSettled, h.handlerLt,
      h.orphansDestroyed, h.destroyedCascade⟩
  · have hflag' : w.stateDestroyed = false := by simpa using hflag
    cases hp : w.promise with
    | none =>
      rw [commitNew_noPromise w hflag' hp]
      exact h
    | some p =>
      rw [commitNew_live w p hflag' hp]
      exact wf_newAsyncData w p h hc hflag'

lemma wf_runSettleHandler (w : World) (aid : Nat) (o : Outcome) (h : WF w)
    (h3 : ∀ ad, findAD w.ads aid = some ad → lookupSettled w.settled ad.promise ≠ none) :
    WF (runSettleHandler w aid o) := by
  cases hf : findAD w.ads aid with
  | none =>
    rw [runSettleHandler_eq_none w aid o hf]
    exact h
  | some ad =>
    by_cases hdd : ad.destroyed = true
    · rw [runSettleHandler_eq_destroyed w aid o ad hf hdd]
      exact h
    · have hdd' : ad.destroyed = false := by simpa using hdd
      rw [runSettleHandler_eq_live w aid o ad hf hdd']
      refine ⟨?_, ?_, ?_, ?_, h.handlerLt, ?_, ?_⟩
      · show (List.map Prod.fst (setStatus w.ads aid o.toStatus)).Nodup
        rw [setStatus, keys_updateAD]
        exact h.nodupKeys
      · intro x adx hfx
        obtain ⟨ad0, hf0, _, _, _, _⟩ := findAD_setStatus_fields _ _ _ _ _ hfx
        exact h.keysLt _ _ hf0
      · intro x adx hfx hst
        obtain ⟨ad0, hf0, hpx, _, _, hnee⟩ := findAD_setStatus_fields _ _ _ _ _ hfx
        rw [hpx]
        by_cases hx : x = aid
        · rw [hx] at hf0
          have had : ad0 = ad := Option.some.inj (hf0.symm.trans hf)
          rw [had]
          exact h3 ad hf
        · have hsx : adx.status = ad0.status := congrArg AsyncData.status (hnee hx)
          exact h.settledOfStatus _ _ hf0 (by rw [← hsx]; exact hst)
      · intro x o' hmem adx hfx
        obtain ⟨ad0, hf0, hpx, _, _, _⟩ := findAD_setStatus_fields _ _ _ _ _ hfx
        rw [hpx]
        exact h.handlerSettled x o' hmem ad0 hf0
      · intro x adx hfx hne
        obtain ⟨ad0, hf0, _, hdx, _, _⟩ := findAD_setStatus_fields _ _ _ _ _ hfx
        rw [hdx]
        exact h.orphansDestroyed _ _ hf0 hne
      · intro hfl x adx hdata hfx
        obtain ⟨ad0, hf0, _, hdx, _, _⟩ := findAD_setStatus_fields _ _ _ _ _ hfx
        rw [hdx]
        exact h.destroyedCascade hfl _ _ hdata hf0

lemma wf_drainOne (w : World) (h : WF w) : WF (drainOne w) := by
  cases hq : w.queue with
  | nil =>
    simp only [drainOne, hq]
    exact h
  | cons t rest =>
    have hw' : WF { w with queue := rest } :=
      ⟨h.nodupKeys, h.keysLt, h.settledOfStatus,
        fun aid o hm ad hf =>
          h.handlerSettled aid o (by rw [hq]; exact List.mem_cons_of_mem _ hm) ad hf,
        fun aid o hm => h.handlerLt aid o (by rw [hq]; exact List.mem_cons_of_mem _ hm),
        h.orphansDestroyed, h.destroyedCascade⟩
    cases t with
    | retryCont =>
      simp only [drainOne, hq]
      show WF (runRetryCont { w with queue := rest })
      unfold runRetryCont
      exact wf_commitNew _ (wf_clearPrev _ hw') (clearPrev_currentSafe _)
    | settleHandler aid o =>
      simp only [drainOne, hq]
      show WF (runSettleHandler { w with queue := rest } aid o)
      refine wf_runSettleHandler _ aid o hw' ?_
      intro ad hf
      exact h.handlerSettled aid o (by rw [hq]; exact List.mem_cons_self _ _) ad hf

lemma wf_step (w : World) (e : Event) (h : WF w) : WF (step w e) := by
  cases e with
  | callRetry p => exact wf_retrySync w (Except.ok p) h
  | settle p o => exact wf_settleStep w p o h
  | drain => exact wf_drainOne w h
  | destroyState => exact wf_destroyState w h

lemma wf_run (w : World) (tr : List Event) (h : WF w) : WF (run w tr) := by
  induction tr generalizing w with
  | nil => exact h
  | cons e es ih => exact ih _ (wf_step w e h)

lemma wf_initialWorld : WF initialWorld := by
  refine ⟨?_, ?_, ?_, ?_, ?_, ?_, ?_⟩
  · simp [initialWorld]
  · intro aid ad hf
    simp [initialWorld] at hf
  · intro aid ad hf
    simp [initialWorld] at hf
  · intro aid o hmem
    simp [initialWorld] at hmem
  · intro aid o hmem
    simp [initialWorld] at hmem
  · intro aid ad hf
    simp [initialWorld] at hf
  · intro hcon
    simp [initialWorld] at hcon
/-! ## Preservation of the stale-settlement invariants -/

lemma sSafe_clearPrev (w : World) (pa : Nat) (h : sSafe w pa) : sSafe (clearPrev w) pa := by
  cases hd : w.data with
  | none =>
    rw [clearPrev_eq_none w hd]
    exact h
  | some aid0 =>
    cases hf : findAD w.ads aid0 with
    | none =>
      rw [clearPrev_eq_nofind w aid0 hd hf]
      exact h
    | some ad0 =>
      by_cases hdd : ad0.destroyed = true
      · rw [clearPrev_alreadyDestroyed w aid0 ad0 hd hf hdd]
        exact h
      · have hdd' : ad0.destroyed = false := by simpa using hdd
        rw [clearPrev_eq_safe w aid0 ad0 hd hf hdd']
        intro aid ad hfx hpx
        obtain ⟨adp, hf0, hp, hs, _, _⟩ := findAD_markDestroyed_fields _ _ _ _ hfx
        rw [hs]
        exact h aid adp hf0 (by rw [← hp]; exact hpx)

lemma sSafe_commitNew (w : World) (pa : Nat) (h : sSafe w pa) : sSafe (commitNew w) pa := by
  by_cases hflag : w.stateDestroyed = true
  · rw [commitNew_dead w hflag]
    exact h
  · have hflag' : w.stateDestroyed = false := by simpa using hflag
    cases hp : w.promise with
    | none =>
      rw [commitNew_noPromise w hflag' hp]
      exact h
    | some p =>
      rw [commitNew_live w p hflag' hp]
      intro aid ad hfx hpx
      unfold newAsyncData at hfx
      cases hls : lookupSettled w.settled p with
      | none =>
        rw [hls] at hfx
        rcases findAD_concat_cases _ _ _ _ _ hfx with hfx | ⟨_, _, had⟩
        · exact h aid ad hfx hpx
        · rw [had]
      | some o =>
        rw [hls] at hfx
        rcases findAD_concat_cases _ _ _ _ _ hfx with hfx | ⟨_, _, had⟩
        · exact h aid ad hfx hpx
        · rw [had]

lemma sSafe_destroyState (w : World) (pa : Nat) (h : sSafe w pa) :
    sSafe (destroyState w) pa := by
  cases hd : w.data with
  | none =>
    rw [destroyState_eq_none w hd]
    exact h
  | some aid0 =>
    rw [destroyState_eq_some w aid0 hd]
    intro aid ad hfx hpx
    obtain ⟨adp, hf0, hp, hs, _, _⟩ := findAD_markDestroyed_fields _ _ _ _ hfx
    rw [hs]
    exact h aid adp hf0 (by rw [← hp]; exact hpx)

lemma sSafe_retrySync (w : World) (r : Except Nat Nat) (pa : Nat) (h : sSafe w pa) :
    sSafe (retrySync w r).1 pa := by
  unfold retrySync
  by_cases hflag : w.stateDestroyed = true
  · simpa [hflag] using h
  · simp only [Bool.not_eq_true] at hflag
    cases r with
    | error e => simpa [hflag] using h
    | ok p =>
      simp only [hflag, Bool.false_eq_true, if_false]
      exact h

lemma sSafe_settleStep (w : World) (p : Nat) (o : Outcome) (pa : Nat) (h : sSafe w pa) :
    sSafe (settleStep w p o) pa := by
  unfold settleStep
  cases hls : lookupSettled w.settled p with
  | some _ => exact h
  | none => exact h

/-! ## Field stability of the drain step -/

lemma commitNew_promise_flag (w : World) :
    (commitNew w).promise = w.promise ∧
    (commitNew w).stateDestroyed = w.stateDestroyed ∧
    (commitNew w).settled = w.settled := by
  by_cases hflag : w.stateDestroyed = true
  · rw [commitNew_dead w hflag]
    exact ⟨rfl, rfl, rfl⟩
  · have hflag' : w.stateDestroyed = false := by simpa using hflag
    cases hp : w.promise with
    | none =>
      rw [commitNew_noPromise w hflag' hp]
      exact ⟨hp, rfl, rfl⟩
    | some p =>
      rw [commitNew_live w p hflag' hp]
      have hfields := newAsyncData_fields w p
      exact ⟨hfields.2.2.2.1.trans hp, hfields.2.2.2.2.2.1, hfields.2.2.2.2.1⟩

lemma runSettleHandler_fields (w : World) (aid : Nat) (o : Outcome) :
    (runSettleHandler w aid o).promise = w.promise ∧
    (runSettleHandler w aid o).stateDestroyed = w.stateDestroyed ∧
    (runSettleHandler w aid o).settled = w.settled ∧
    (runSettleHandler w aid o).queue = w.queue ∧
    (runSettleHandler w aid o).data = w.data := by
  cases hf : findAD w.ads aid with
  | none =>
    rw [runSettleHandler_eq_none w aid o hf]
    exact ⟨rfl, rfl, rfl, rfl, rfl⟩
  | some ad =>
    by_cases hdd : ad.destroyed = true
    · rw [runSettleHandler_eq_destroyed w aid o ad hf hdd]
      exact ⟨rfl, rfl, rfl, rfl, rfl⟩
    · have hdd' : ad.destroyed = false := by simpa using hdd
      rw [runSettleHandler_eq_live w aid o ad hf hdd']
      exact ⟨rfl, rfl, rfl, rfl, rfl⟩

lemma promiseSafe_step (w : World) (e : Event) (pa : Nat) (hps : promiseSafe w pa)
    (he : ∀ p, e = Event.callRetry p → p ≠ pa) : promiseSafe (step w e) pa := by
  cases e with
  | callRetry p =>
    show promiseSafe (retrySync w (Except.ok p)).1 pa
    unfold retrySync
    by_cases hflag : w.stateDestroyed = true
    · simpa [hflag] using hps
    · simp only [Bool.not_eq_true] at hflag
      simp only [hflag, Bool.false_eq_true, if_false]
      refine Or.inr ?_
      intro hcon
      have : p = pa := Option.some.inj hcon
      exact he p rfl this
  | settle p o =>
    show promiseSafe (settleStep w p o) pa
    unfold settleStep
    cases hls : lookupSettled w.settled p with
    | some _ => exact hps
    | none =>
      rcases hps with hps | hps
      · exact Or.inl hps
      · exact Or.inr hps
  | drain =>
    show promiseSafe (drainOne w) pa
    cases hq : w.queue with
    | nil =>
      simp only [drainOne, hq]
      exact hps
    | cons t rest =>
      cases t with
      | retryCont =>
        simp only [drainOne, hq]
        show promiseSafe (runRetryCont { w with queue := rest }) pa
        unfold runRetryCont
        have hcf := clearPrev_fields { w with queue := rest }
        have hcm := commitNew_promise_flag (clearPrev { w with queue := rest })
        rcases hps with hps | hps
        · refine Or.inl ?_
          rw [hcm.2.1, hcf.2.2.1]
          exact hps
        · refine Or.inr ?_
          rw [hcm.1, hcf.2.1]
          exact hps
      | settleHandler aid o =>
        simp only [drainOne, hq]
        show promiseSafe (runSettleHandler { w with queue := rest } aid o) pa
        have hrf := runSettleHandler_fields { w with queue := rest } aid o
        rcases hps with hps | hps
        · refine Or.inl ?_
          rw [hrf.2.1]
          exact hps
        · refine Or.inr ?_
          rw [hrf.1]
          exact hps
  | destroyState =>
    show promiseSafe (destroyState w) pa
    refine Or.inl ?_
    cases hd : w.data with
    | none => rw [destroyState_eq_none w hd]
    | some aid0 => rw [destroyState_eq_some w aid0 hd]
lemma wf_queue_tail (w : World) (t : Microtask) (rest : List Microtask)
    (hq : w.queue = t :: rest) (h : WF w) : WF { w with queue := rest } :=
  ⟨h.nodupKeys, h.keysLt, h.settledOfStatus,
    fun aid o hm ad hf =>
      h.handlerSettled aid o (by rw [hq]; exact List.mem_cons_of_mem _ hm) ad hf,
    fun aid o hm => h.handlerLt aid o (by rw [hq]; exact List.mem_cons_of_mem _ hm),
    h.orphansDestroyed, h.destroyedCascade⟩

lemma cInv_runRetryCont (w : World) (pa : Nat) (h : WF w) (hps : promiseSafe w pa) :
    cInv (runRetryCont w) pa := by
  unfold runRetryCont
  have hc := clearPrev_currentSafe w
  have hcf := clearPrev_fields w
  by_cases hflag : (clearPrev w).stateDestroyed = true
  · rw [commitNew_dead _ hflag]
    intro aid ad hdata hf
    exact Or.inl (hc aid ad hdata hf)
  · have hflag' : (clearPrev w).stateDestroyed = false := by simpa using hflag
    cases hp : (clearPrev w).promise with
    | none =>
      rw [commitNew_noPromise _ hflag' hp]
      intro aid ad hdata hf
      exact Or.inl (hc aid ad hdata hf)
    | some p =>
      rw [commitNew_live _ p hflag' hp]
      have hpa : p ≠ pa := by
        rcases hps with hps | hps
        · rw [hcf.2.2.1, hps] at hflag'
          exact absurd hflag' (by simp)
        · intro hcon
          rw [hcon] at hp
          rw [hcf.2.1] at hp
          exact hps hp
      have hwfc : WF (clearPrev w) := wf_clearPrev w h
      have hfresh : findAD (clearPrev w).ads (clearPrev w).nextAD = none := by
        cases hfa : findAD (clearPrev w).ads (clearPrev w).nextAD with
        | none => rfl
        | some ad => exact absurd (hwfc.keysLt _ _ hfa) (by simp)
      intro aid ad hdata hf
      have hdata' : some (clearPrev w).nextAD = some aid := by
        rw [← (newAsyncData_fields (clearPrev w) p).2.1]
        exact hdata
      have haid : (clearPrev w).nextAD = aid := Option.some.inj hdata'
      have hads := (newAsyncData_fields (clearPrev w) p).1
      rw [hads] at hf
      rcases findAD_concat_cases _ _ _ _ _ hf with hf | ⟨_, _, had⟩
      · rw [← haid] at hf
        exact absurd (hfresh.symm.trans hf) (by simp)
      · rw [had]
        exact Or.inr hpa

lemma cInv_runSettleHandler (w : World) (aid : Nat) (o : Outcome) (pa : Nat)
    (h : cInv w pa) : cInv (runSettleHandler w aid o) pa := by
  cases hfa : findAD w.ads aid with
  | none =>
    rw [runSettleHandler_eq_none w aid o hfa]
    exact h
  | some a =>
    by_cases hdd : a.destroyed = true
    · rw [runSettleHandler_eq_destroyed w aid o a hfa hdd]
      exact h
    · have hdd' : a.destroyed = false := by simpa using hdd
      rw [runSettleHandler_eq_live w aid o a hfa hdd']
      intro x ad hdata hf
      obtain ⟨ad0, hf0, hpx, hdx, _, _⟩ := findAD_setStatus_fields _ _ _ _ _ hf
      rcases h x ad0 hdata hf0 with hl | hr
      · left
        rw [hdx]
        exact hl
      · right
        rw [hpx]
        exact hr

lemma sSafe_runSettleHandler_of_safe (w : World) (aid : Nat) (o : Outcome) (pa : Nat)
    (h : sSafe w pa)
    (hsafe : ∀ ad, findAD w.ads aid = some ad → ad.promise = pa → ad.destroyed = true) :
    sSafe (runSettleHandler w aid o) pa := by
  cases hfa : findAD w.ads aid with
  | none =>
    rw [runSettleHandler_eq_none w aid o hfa]
    exact h
  | some a =>
    by_cases hdd : a.destroyed = true
    · rw [runSettleHandler_eq_destroyed w aid o a hfa hdd]
      exact h
    · have hdd' : a.destroyed = false := by simpa using hdd
      rw [runSettleHandler_eq_live w aid o a hfa hdd']
      intro x ad hf hp
      obtain ⟨ad0, hf0, hpx, _, _, hnee⟩ := findAD_setStatus_fields _ _ _ _ _ hf
      by_cases hx : x = aid
      · exfalso
        rw [hx] at hf0
        have ha : ad0 = a := Option.some.inj (hf0.symm.trans hfa)
        have hap : a.promise = pa := by
          rw [← ha, ← hpx]
          exact hp
        rw [hsafe a hfa hap] at hdd'
        exact absurd hdd' (by simp)
      · rw [hnee hx]
        exact h x ad0 hf0 (by rw [← hpx]; exact hp)

lemma goodB_step (w : World) (e : Event) (pa : Nat) (hG : goodB w pa)
    (he : ∀ p, e = Event.callRetry p → p ≠ pa) : goodB (step w e) pa := by
  obtain ⟨hwf, hs, hps, hcq⟩ := hG
  have hwf' : WF (step w e) := wf_step w e hwf
  have hps' : promiseSafe (step w e) pa :=
    promiseSafe_step w e pa hps he
  cases e with
  | callRetry p =>
    refine ⟨hwf', sSafe_retrySync w _ pa hs, hps', ?_⟩
    show cInv (retrySync w (Except.ok p)).1 pa ∨ qInv (retrySync w (Except.ok p)).1 pa
    unfold retrySync
    by_cases hflag : w.stateDestroyed = true
    · simpa [hflag] using hcq
    · simp only [Bool.not_eq_true] at hflag
      simp only [hflag, Bool.false_eq_true, if_false]
      rcases hcq with hc | hqv
      · exact Or.inl hc
      · refine Or.inr ⟨List.mem_append.2 (Or.inl hqv.1), ?_⟩
        intro aid o hmem ad hf
        rw [preCont_append_of_mem _ _ hqv.1] at hmem
        exact hqv.2 aid o hmem ad hf
  | settle p o =>
    refine ⟨hwf', sSafe_settleStep w p o pa hs, hps', ?_⟩
    show cInv (settleStep w p o) pa ∨ qInv (settleStep w p o) pa
    unfold settleStep
    cases hls : lookupSettled w.settled p with
    | some _ => exact hcq
    | none =>
      rcases hcq with hc | hqv
      · exact Or.inl hc
      · refine Or.inr ⟨List.mem_append.2 (Or.inl hqv.1), ?_⟩
        intro aid o' hmem ad hf
        rw [preCont_append_of_mem _ _ hqv.1] at hmem
        exact hqv.2 aid o' hmem ad hf
  | destroyState =>
    refine ⟨hwf', sSafe_destroyState w pa hs, hps', Or.inl ?_⟩
    show cInv (destroyState w) pa
    cases hd : w.data with
    | none =>
      rw [destroyState_eq_none w hd]
      intro aid ad hdata _
      have h2 : w.data = some aid := hdata
      rw [hd] at h2
      exact absurd h2 (by simp)
    | some aid0 =>
      rw [destroyState_eq_some w aid0 hd]
      intro aid ad hdata hf
      have h2 : w.data = some aid := hdata
      have haid : aid0 = aid := Option.some.inj (hd.symm.trans h2)
      obtain ⟨ad0, hf0, _, _, hde, _⟩ := findAD_markDestroyed_fields _ _ _ _ hf
      exact Or.inl (hde haid.symm)
  | drain =>
    show goodB (drainOne w) pa
    cases hq : w.queue with
    | nil =>
      have heq : drainOne w = w := by simp [drainOne, hq]
      rw [heq]
      exact ⟨hwf, hs, hps, hcq⟩
    | cons t rest =>
      have hwt : WF { w with queue := rest } := wf_queue_tail w t rest hq hwf
      cases t with
      | retryCont =>
        have hstep : drainOne w = runRetryCont { w with queue := rest } := by
          simp [drainOne, hq]
        rw [hstep]
        refine ⟨by rw [← hstep]; exact hwf', ?_, by rw [← hstep]; exact hps', Or.inl ?_⟩
        · show sSafe (commitNew (clearPrev { w with queue := rest })) pa
          exact sSafe_commitNew _ _ (sSafe_clearPrev _ _ hs)
        · exact cInv_runRetryCont _ pa hwt hps
      | settleHandler aid o =>
        have hstep : drainOne w = runSettleHandler { w with queue := rest } aid o := by
          simp [drainOne, hq]
        rw [hstep]
        have hsafe : ∀ ad, findAD w.ads aid = some ad → ad.promise = pa →
            ad.destroyed = true := by
          intro ad hf hp
          rcases hcq with hc | hqv
          · by_cases hcur : w.data = some aid
            · rcases hc aid ad hcur hf with hdd | hnp
              · exact hdd
              · exact absurd hp hnp
            · exact hwf.orphansDestroyed _ _ hf hcur
          · have hhm : Microtask.settleHandler aid o ∈ preCont w.queue := by
              rw [hq, preCont_cons_handler]
              exact List.mem_cons_self _ _
            exact absurd hp (hqv.2 aid o hhm ad hf)
        refine ⟨by rw [← hstep]; exact hwf', ?_, by rw [← hstep]; exact hps', ?_⟩
        · exact sSafe_runSettleHandler_of_safe _ aid o pa hs hsafe
        · rcases hcq with hc | hqv
          · exact Or.inl (cInv_runSettleHandler _ aid o pa hc)
          · refine Or.inr ?_
            have hcont : Microtask.retryCont ∈ rest := by
              have hm := hqv.1
              rw [hq] at hm
              rcases List.mem_cons.1 hm with hcc | hcc
              · exact absurd hcc (by simp)
              · exact hcc
            have hrf := runSettleHandler_fields { w with queue := rest } aid o
            refine ⟨by rw [hrf.2.2.2.1]; exact hcont, ?_⟩
            intro x o' hmem ad hf
            rw [hrf.2.2.2.1] at hmem
            have hmem0 : Microtask.settleHandler x o' ∈ preCont w.queue := by
              rw [hq, preCont_cons_handler]
              exact List.mem_cons_of_mem _ hmem
            obtain ⟨ad0, hf0, hpx⟩ := by
              cases hfa : findAD w.ads aid with
              | none =>
                rw [runSettleHandler_eq_none { w with queue := rest } aid o hfa] at hf
                exact (⟨ad, hf, rfl⟩ :
                  ∃ ad0, findAD w.ads x = some ad0 ∧ ad.promise = ad0.promise)
              | some a =>
                by_cases hdd : a.destroyed = true
                · rw [runSettleHandler_eq_destroyed { w with queue := rest } aid o a hfa
                    hdd] at hf
                  exact ⟨ad, hf, rfl⟩
                · have hdd' : a.destroyed = false := by simpa using hdd
                  rw [runSettleHandler_eq_live { w with queue := rest } aid o a hfa
                    hdd'] at hf
                  obtain ⟨ad0, hf0, hpx, _, _, _⟩ := findAD_setStatus_fields _ _ _ _ _ hf
                  exact ⟨ad0, hf0, hpx⟩
            rw [hpx]
            exact hqv.2 x o' hmem0 ad0 hf0
lemma retrySync_eq_dead (w : World) (r : Except Nat Nat)
    (hflag : w.stateDestroyed = true) : (retrySync w r).1 = w := by
  simp [retrySync, hflag]

lemma retrySync_eq_ok (w : World) (p : Nat) (hflag : w.stateDestroyed = false) :
    (retrySync w (Except.ok p)).1 = { w with
        promise := some p
        queue := w.queue ++ [Microtask.retryCont]
        log := w.log ++ [Action.invokedFn p, Action.yielded] } := by
  simp [retrySync, hflag]

lemma goodB_estab (pre : List Event) (pa pb : Nat) (hpb : pb ≠ pa)
    (hPa : lookupSettled (run initialWorld pre).settled pa = none) :
    goodB (step (run initialWorld pre) (Event.callRetry pb)) pa := by
  have hwf : WF (run initialWorld pre) := wf_run _ pre wf_initialWorld
  have hs0 : sSafe (run initialWorld pre) pa := by
    intro aid ad hf hp
    by_contra hne
    exact (hwf.settledOfStatus aid ad hf hne) (by rw [hp]; exact hPa)
  show goodB (retrySync (run initialWorld pre) (Except.ok pb)).1 pa
  by_cases hflag : (run initialWorld pre).stateDestroyed = true
  · rw [retrySync_eq_dead _ _ hflag]
    refine ⟨hwf, hs0, Or.inl hflag, Or.inl ?_⟩
    intro aid ad hdata hf
    exact Or.inl (hwf.destroyedCascade hflag aid ad hdata hf)
  · have hflag' : (run initialWorld pre).stateDestroyed = false := by simpa using hflag
    rw [retrySync_eq_ok _ pb hflag']
    refine ⟨?_, hs0, Or.inr ?_, Or.inr ⟨?_, ?_⟩⟩
    · rw [← retrySync_eq_ok _ pb hflag']
      exact wf_retrySync _ _ hwf
    · intro hcon
      exact hpb (Option.some.inj hcon)
    · exact List.mem_append.2 (Or.inr (by simp))
    · intro aid o hmem ad hf
      have hmem1 := mem_of_mem_preCont _ _ hmem
      have hmem2 : Microtask.settleHandler aid o ∈ (run initialWorld pre).queue := by
        rcases List.mem_append.1 hmem1 with hm | hm
        · exact hm
        · exact absurd hm (by simp)
      intro hp
      exact (hwf.handlerSettled aid o hmem2 ad hf) (by rw [hp]; exact hPa)

lemma goodB_run (w : World) (tr : List Event) (pa : Nat) (hG : goodB w pa)
    (htr : ∀ p, Event.callRetry p ∈ tr → p ≠ pa) : goodB (run w tr) pa := by
  induction tr generalizing w with
  | nil => exact hG
  | cons e es ih =>
    refine ih _ (goodB_step w e pa hG ?_) ?_
    · intro p hep
      exact htr p (by rw [hep]; exact List.mem_cons_self _ _)
    · intro p hmem
      exact htr p (List.mem_cons_of_mem _ hmem)

/-! ## Claim C1: a superseded invocation's settlement is never visible -/

/-- Claim C1: stale-result protection.  Start from any reachable world (any
event trace `pre` from the fresh wrapper — in particular one in which an
invocation A captured promise `pa`).  If invocation B is triggered
(`callRetry pb`, and the source function returns a fresh promise, `pb ≠ pa`)
while `pa` has not yet settled, then at every point of every subsequent
schedule — promise settlements including `pa`'s, microtask drains, further
invocations (returning promises other than `pa`), even destruction of the
`State` — the wrapper's observable `state`/`value` never reflect `pa`'s
settlement: no async-result attached to `pa` is ever current with a settled
status, and while a `pa`-attached result is still referenced its state reads
`"PENDING"` with a null `value`.  The superseded result object is discarded
before the stale settlement is delivered, and the settle handler no-ops on a
destroyed result. -/
theorem staleSettlementNeverVisible (pre post : List Event) (pa pb : Nat)
    (hpb : pb ≠ pa)
    (hPa : lookupSettled (run initialWorld pre).settled pa = none)
    (hpost : ∀ p, Event.callRetry p ∈ post → p ≠ pa) :
    ∀ mid rest, post = mid ++ rest →
      ¬ reflectsSettlement
          (run (step (run initialWorld pre) (Event.callRetry pb)) mid) pa ∧
      ∀ aid ad,
        (run (step (run initialWorld pre) (Event.callRetry pb)) mid).data = some aid →
        findAD (run (step (run initialWorld pre) (Event.callRetry pb)) mid).ads aid =
          some ad → ad.promise = pa →
        stateGet (run (step (run initialWorld pre) (Event.callRetry pb)) mid) =
          "PENDING" ∧
        valueGet (run (step (run initialWorld pre) (Event.callRetry pb)) mid) = none := by
  intro mid rest hsplit
  have hmid : ∀ p, Event.callRetry p ∈ mid → p ≠ pa := by
    intro p hmem
    exact hpost p (by rw [hsplit]; exact List.mem_append.2 (Or.inl hmem))
  have hG : goodB (run (step (run initialWorld pre) (Event.callRetry pb)) mid) pa :=
    goodB_run _ mid pa (goodB_estab pre pa pb hpb hPa) hmid
  constructor
  · rintro ⟨aid, ad, hd, hf, hp, hst⟩
    exact hst (hG.2.1 aid ad hf hp)
  · intro aid ad hd hf hp
    have hpend : ad.status = ADStatus.pending := hG.2.1 aid ad hf hp
    constructor
    · simp [stateGet, hd, hf, AsyncData.state, hpend]
    · simp [valueGet, hd, hf, hpend]

/-- Witness for C1: invocation A captures promise 1 and its async-result is
created; invocation B (promise 2) supersedes it; promise 1 then settles with
value 7 and the whole queue drains — the wrapper never reflects promise 1's
settlement. -/
theorem staleSettlementNeverVisibleWitness :
    ¬ reflectsSettlement
      (run (step (run initialWorld [Event.callRetry 1, Event.drain])
        (Event.callRetry 2))
        [Event.settle 1 (Outcome.resolved 7), Event.drain, Event.drain, Event.drain]) 1 :=
  (staleSettlementNeverVisible [Event.callRetry 1, Event.drain]
    [Event.settle 1 (Outcome.resolved 7), Event.drain, Event.drain, Event.drain] 1 2
    (by decide) (by decide)
    (by intro p hmem; simp at hmem)
    [Event.settle 1 (Outcome.resolved 7), Event.drain, Event.drain, Event.drain] []
    (by simp)).1
end TrackedFn
